import Mathlib

/-!
# GEX monitor — verification of the core analytics engine

A shallow embedding of the gamma-exposure (GEX) analytics worker
(`calculateGEX`, `cleanIV`, `storeIVHistory` and the `/api/gex` route guardrails
of the v2 worker).  JavaScript numbers are idealised as exact rationals `ℚ`,
nullable values as `Option`, and the provider's nested chain maps as
association lists in iteration order.  The per-strike object `byStrike` is
realised by folding the flattened entry list once per strike key, which
performs the same accumulation in the same order as the source's single pass.

The rational-arithmetic operations are restored to their normal (semireducible)
transparency so that concrete runs of the engine evaluate inside `decide`;
this affects elaboration only, never the kernel's checking of the proofs.
-/

set_option allowUnsafeReducibility true

attribute [semireducible] Rat.add Rat.mul Rat.sub Rat.inv

/-- `Math.abs` on rationals. -/
def qabs (x : ℚ) : ℚ := if x < 0 then -x else x

/-- `Math.min` on rationals. -/
def qmin (x y : ℚ) : ℚ := if x ≤ y then x else y

/-- `Math.floor` on rationals, as an integer. -/
def qfloor (x : ℚ) : ℤ := x.num.fdiv (x.den : ℤ)

/-- `Number.prototype.toFixed(2)` followed by `parseFloat`: round to two
decimal places, ties toward positive infinity. -/
def roundTo2 (x : ℚ) : ℚ := ((qfloor (x * 100 + 1/2) : ℤ) : ℚ) / 100

/-- One option contract as delivered by the provider: every field may be
absent (`?? 0` defaulting happens at use sites, as in the source). -/
structure Contract where
  gamma : Option ℚ
  openInterest : Option ℕ
  totalVolume : Option ℕ
  volatility : Option ℚ
deriving DecidableEq, Repr

/-- The provider chain: `callExpDateMap` / `putExpDateMap`, each a map (in
iteration order) from a composite expiration key to a map from strike price to
a contract.  The source unwraps one-element contract arrays to their first
element; the embedding receives that first contract directly. -/
structure Chain where
  callExpDateMap : List (String × List (ℚ × Contract))
  putExpDateMap : List (String × List (ℚ × Contract))
deriving DecidableEq, Repr

/-- `cleanIV`: drop absent, negative or above-500 volatility readings. -/
def cleanIV (v : Option ℚ) : Option ℚ :=
  match v with
  | none => none
  | some x => if x < 0 ∨ x > 500 then none else some x

/-- A flattened chain entry: strike, `isCall`, contract. -/
abbrev Entry : Type := ℚ × Bool × Contract

/-- Flatten both expiration maps into the list of (strike, side, contract)
triples, calls first, in iteration order — the order in which `processMap`
visits contracts. -/
def chainEntries (c : Chain) : List Entry :=
  (c.callExpDateMap.foldr (fun p acc => p.2.map (fun q => (q.1, true, q.2)) ++ acc) []) ++
  (c.putExpDateMap.foldr (fun p acc => p.2.map (fun q => (q.1, false, q.2)) ++ acc) [])

/-- The ascending, duplicate-free list of strikes appearing in the chain
(`Object.keys(byStrike).map(Number).sort((a, b) => a - b)`). -/
def strikesOf (c : Chain) : List ℚ :=
  ((chainEntries c).map (fun e => e.1)).dedup.insertionSort (fun a b => a ≤ b)

/-- The per-strike accumulator `byStrike[strike]`. -/
structure Accum where
  callGex : ℚ
  putGex : ℚ
  callOI : ℕ
  putOI : ℕ
  callVol : ℕ
  putVol : ℕ
  callIV : Option ℚ
  putIV : Option ℚ
deriving DecidableEq, Repr

/-- The freshly initialised accumulator. -/
def Accum.init : Accum := ⟨0, 0, 0, 0, 0, 0, none, none⟩

/-- Dollar gamma exposure of one leg:
`gamma * oi * 100 * spot * spot * 0.01`. -/
def gexOf (gamma : ℚ) (oi : ℕ) (spot : ℚ) : ℚ :=
  gamma * (oi : ℚ) * 100 * spot * spot * (1/100)

/-- One step of the per-strike accumulation: entries at other strikes are
skipped, call and put entries update their respective sides, and a valid IV
overwrites the side's representative IV (last valid reading wins). -/
def accumStep (spot strike : ℚ) (a : Accum) (e : Entry) : Accum :=
  if e.1 = strike then
    let ct := e.2.2
    let gamma := ct.gamma.getD 0
    let oi := ct.openInterest.getD 0
    let vol := ct.totalVolume.getD 0
    let iv := cleanIV ct.volatility
    let gex := gexOf gamma oi spot
    if e.2.1 then
      { a with
        callGex := a.callGex + gex
        callOI := a.callOI + oi
        callVol := a.callVol + vol
        callIV := match iv with | some v => some v | none => a.callIV }
    else
      { a with
        putGex := a.putGex + gex
        putOI := a.putOI + oi
        putVol := a.putVol + vol
        putIV := match iv with | some v => some v | none => a.putIV }
  else a

/-- The accumulated `byStrike[strike]` after the whole chain was processed. -/
def accumAt (entries : List Entry) (spot strike : ℚ) : Accum :=
  entries.foldl (accumStep spot strike) Accum.init

/-- One record of the per-strike output array `strikeData`. -/
structure StrikeRecord where
  strike : ℚ
  callGex : ℚ
  putGex : ℚ
  netGex : ℚ
  callOI : ℕ
  putOI : ℕ
  totalOI : ℕ
  callVol : ℕ
  putVol : ℕ
  totalVol : ℕ
  volOIRatio : ℚ
  callIV : Option ℚ
  putIV : Option ℚ
deriving DecidableEq, Repr

/-- Build the `strikeData` record for one strike. -/
def mkRecord (entries : List Entry) (spot strike : ℚ) : StrikeRecord :=
  let a := accumAt entries spot strike
  let totalOI := a.callOI + a.putOI
  let totalVol := a.callVol + a.putVol
  { strike := strike
    callGex := a.callGex
    putGex := a.putGex
    netGex := a.callGex + a.putGex
    callOI := a.callOI
    putOI := a.putOI
    totalOI := totalOI
    callVol := a.callVol
    putVol := a.putVol
    totalVol := totalVol
    volOIRatio := if 0 < totalOI then qmin ((totalVol : ℚ) / (totalOI : ℚ)) 10 else 0
    callIV := a.callIV
    putIV := a.putIV }

/-- The full `strikeData` array, one record per ascending strike. -/
def strikeDataOf (c : Chain) (spot : ℚ) : List StrikeRecord :=
  (strikesOf c).map (mkRecord (chainEntries c) spot)

/-- Running cumulative sums starting from `r` (`running += s.netGex`). -/
def cumFrom (r : ℚ) : List ℚ → List ℚ
  | [] => []
  | x :: xs => (r + x) :: cumFrom (r + x) xs

/-- Does an adjacent pair of the cumulative curve straddle zero? -/
def hasStraddle : List ℚ → Bool
  | a :: b :: rest => (decide ((a < 0 ∧ 0 ≤ b) ∨ (0 ≤ a ∧ b < 0))) || hasStraddle (b :: rest)
  | _ => false

/-- All interpolated zero-crossing prices, scanning adjacent pairs of
(strike, cumulative) in ascending strike order. -/
def findCrossings : List (ℚ × ℚ) → List ℚ
  | p :: q :: rest =>
    let tail := findCrossings (q :: rest)
    if (p.2 < 0 ∧ 0 ≤ q.2) ∨ (0 ≤ p.2 ∧ q.2 < 0) then
      (p.1 + qabs p.2 / (qabs p.2 + qabs q.2) * (q.1 - p.1)) :: tail
    else tail
  | _ => []

/-- `crossings.reduce(...)`: the crossing nearest to spot, strict comparison,
so earlier crossings win ties. -/
def nearestTo (spot : ℚ) (c : ℚ) (cs : List ℚ) : ℚ :=
  cs.foldl (fun p k => if qabs (k - spot) < qabs (p - spot) then k else p) c

/-- Select the crossing the source keeps: nearest to a truthy spot, otherwise
the first crossing. -/
def chooseCrossing (spot : ℚ) : List ℚ → ℚ
  | [] => 0
  | c :: cs => if spot = 0 then c else nearestTo spot c cs

/-- The gamma-flip value: `null` without a crossing, else the chosen crossing
rounded to two decimals (a flip of exactly 0 is falsy in the source and skips
the rounding step). -/
def gammaFlipOf (spot : ℚ) (pairs : List (ℚ × ℚ)) : Option ℚ :=
  match findCrossings pairs with
  | [] => none
  | c :: cs =>
    let chosen := chooseCrossing spot (c :: cs)
    some (if chosen = 0 then chosen else roundTo2 chosen)

/-- Is the strike within the ±40% band around spot? -/
def inBand (spot : ℚ) (s : StrikeRecord) : Bool :=
  decide (spot * (3/5) ≤ s.strike) && decide (s.strike ≤ spot * (7/5))

/-- One step of the wall scan: the running maximum starts at `-Infinity`, so
the first record always wins; afterwards only a strictly larger key replaces
the incumbent. -/
def wallStep (key : StrikeRecord → ℚ) (acc : Option ℚ × Option ℚ) (s : StrikeRecord) :
    Option ℚ × Option ℚ :=
  match acc.2 with
  | none => (some s.strike, some (key s))
  | some m => if m < key s then (some s.strike, some (key s)) else acc

/-- The wall strike maximising `key` over the given records (`null` when the
list is empty). -/
def pickWall (key : StrikeRecord → ℚ) (l : List StrikeRecord) : Option ℚ :=
  (l.foldl (wallStep key) (none, none)).1

/-- Turn an optional reading into a zero- or one-element list. -/
def catOpt : Option ℚ → List ℚ
  | some v => [v]
  | none => []

/-- Collect the call-side then put-side representative IVs of the records, in
order (`ivValues`). -/
def collectIVs : List StrikeRecord → List ℚ
  | [] => []
  | s :: rest => catOpt s.callIV ++ catOpt s.putIV ++ collectIVs rest

/-- ATM IV: average of the representative IVs of the 5 strikes nearest to a
truthy spot (stable sort by distance, so ties keep ascending strike order). -/
def atmIVOf (spot : ℚ) (sd : List StrikeRecord) : Option ℚ :=
  if spot = 0 ∨ sd = [] then none
  else
    let cands := (sd.insertionSort
      (fun a b => qabs (a.strike - spot) ≤ qabs (b.strike - spot))).take 5
    let ivs := collectIVs cands
    if ivs = [] then none else some (ivs.sum / (ivs.length : ℚ))

/-- The wall IV lookup: skipped entirely for a falsy (null or zero) wall, else
the primary side's IV with the other side as fallback (`cws.callIV ?? cws.putIV`). -/
def wallIVOf (primary secondary : StrikeRecord → Option ℚ) (wall : Option ℚ)
    (sd : List StrikeRecord) : Option ℚ :=
  match wall with
  | none => none
  | some w =>
    if w = 0 then none
    else
      match sd.find? (fun s => decide (s.strike = w)) with
      | none => none
      | some r => match primary r with | some v => some v | none => secondary r

/-- The date portion of a composite expiration key (`expDateStr.split(':')[0]`):
the prefix up to the first colon. -/
def expKeyDate (k : String) : String :=
  String.mk (k.toList.takeWhile (fun ch => ch ≠ ':'))

/-- The sorted, duplicate-free expiration date list. -/
def expirationDatesOf (c : Chain) : List String :=
  (((c.callExpDateMap.map (fun p => expKeyDate p.1)) ++
    (c.putExpDateMap.map (fun p => expKeyDate p.1))).dedup).insertionSort
    (fun a b => a ≤ b)

/-- The engine's output record. -/
structure GexProfile where
  strikes : List StrikeRecord
  aggregateGex : List ℚ
  gammaFlip : Option ℚ
  callWall : Option ℚ
  putWall : Option ℚ
  atmIV : Option ℚ
  callWallIV : Option ℚ
  putWallIV : Option ℚ
  expirationDates : List String
deriving DecidableEq, Repr

/-- The non-empty-chain branch of `calculateGEX`. -/
def mkProfile (c : Chain) (spot : ℚ) : GexProfile :=
  let entries := chainEntries c
  let sd := (strikesOf c).map (mkRecord entries spot)
  let agg := cumFrom 0 (sd.map (fun s => s.netGex))
  let inR := sd.filter (inBand spot)
  let cw := pickWall (fun s => s.callGex) inR
  let pw := pickWall (fun s => qabs s.putGex) inR
  { strikes := sd
    aggregateGex := agg
    gammaFlip := gammaFlipOf spot ((strikesOf c).zip agg)
    callWall := cw
    putWall := pw
    atmIV := atmIVOf spot sd
    callWallIV := wallIVOf (fun s => s.callIV) (fun s => s.putIV) cw sd
    putWallIV := wallIVOf (fun s => s.putIV) (fun s => s.callIV) pw sd
    expirationDates := expirationDatesOf c }

/-- `calculateGEX`: `null` when the chain normalises to no strikes, otherwise
the full profile. -/
def calculateGEX (c : Chain) (spot : ℚ) : Option GexProfile :=
  if strikesOf c = [] then none else some (mkProfile c spot)

/-- The spec's worked example chain: one expiration, strikes 100 and 105 with
the stated gammas and open interests. -/
def exampleChain : Chain :=
  { callExpDateMap :=
      [("2026-01-16:2",
        [(100, ⟨some (1/20), some 1000, some 0, none⟩),
         (105, ⟨some (3/100), some 500, some 0, none⟩)])]
    putExpDateMap :=
      [("2026-01-16:2",
        [(100, ⟨some (-1/25), some 800, some 0, none⟩),
         (105, ⟨some (-1/50), some 900, some 0, none⟩)])] }

/-- The profile the engine actually produces on the worked example. -/
def exampleProfile : GexProfile :=
  { strikes :=
      [{ strike := 100, callGex := 520200, putGex := -332928, netGex := 187272,
         callOI := 1000, putOI := 800, totalOI := 1800,
         callVol := 0, putVol := 0, totalVol := 0,
         volOIRatio := 0, callIV := none, putIV := none },
       { strike := 105, callGex := 156060, putGex := -187272, netGex := -31212,
         callOI := 500, putOI := 900, totalOI := 1400,
         callVol := 0, putVol := 0, totalVol := 0,
         volOIRatio := 0, callIV := none, putIV := none }]
    aggregateGex := [187272, 156060]
    gammaFlip := none
    callWall := some 100
    putWall := some 100
    atmIV := none
    callWallIV := none
    putWallIV := none
    expirationDates := ["2026-01-16"] }

/-- One record of the intraday IV history log. -/
structure IVHistoryRecord where
  time : String
  timestamp : ℤ
  atmIV : Option ℚ
  callWallIV : Option ℚ
  putWallIV : Option ℚ
deriving DecidableEq, Repr

/-- `Array.prototype.slice(-n)`: the suffix of the `n` most recent entries
(the whole list when it is shorter than `n`). -/
def sliceLast (n : ℕ) (l : List IVHistoryRecord) : List IVHistoryRecord :=
  l.drop (l.length - n)

/-- The pure core of `storeIVHistory`: append the new record to the prior
day-scoped log and keep only the 96 most recent entries. -/
def storeIVHistory (history : List IVHistoryRecord) (rec : IVHistoryRecord) :
    List IVHistoryRecord :=
  sliceLast 96 (history ++ [rec])

/-- A placeholder history record. -/
def blankRecord : IVHistoryRecord := ⟨"", 0, none, none, none⟩

/-- The quote payload consumed by the `/api/gex` route. -/
structure Quote where
  lastPrice : Option ℚ
  mark : Option ℚ
  closePrice : Option ℚ
deriving DecidableEq, Repr

/-- `q.lastPrice || q.mark || q.closePrice || 0`: the first present, non-zero
field, else 0. -/
def quoteLast (q : Quote) : ℚ :=
  if q.lastPrice.getD 0 ≠ 0 then q.lastPrice.getD 0
  else if q.mark.getD 0 ≠ 0 then q.mark.getD 0
  else if q.closePrice.getD 0 ≠ 0 then q.closePrice.getD 0
  else 0

/-- `symbol.startsWith('/')`: does the symbol name a futures contract? -/
def startsWithSlash (s : String) : Bool :=
  match s.toList with
  | ch :: _ => ch = '/'
  | [] => false

/-- The `/api/gex` request handler's decision logic: reject a missing symbol,
reject futures symbols, reject a falsy spot price, report an empty chain, and
otherwise hand the chain and spot to `calculateGEX`. -/
def gexRoute (symbol : Option String) (q : Quote) (chain : Chain) :
    Except String GexProfile :=
  match symbol with
  | none => Except.error "symbol required"
  | some s =>
    if startsWithSlash s then Except.error "futures options unsupported"
    else
      let spot := quoteLast q
      if spot = 0 then Except.error "cannot get spot price"
      else
        match calculateGEX chain spot with
        | none => Except.error "GEX calculation failed, option data may be empty"
        | some g => Except.ok g

/-- Did the request succeed with a computed profile? -/
def routeOk : Except String GexProfile → Bool
  | Except.ok _ => true
  | Except.error _ => false

/-- A chain with no contracts at all. -/
def emptyChain : Chain := ⟨[], []⟩

/-- A quote whose only reading is a negative last price. -/
def negQuote : Quote := ⟨some (-5), none, none⟩

/-- The net exposure recorded at a given strike of a profile. -/
def netAt (g : GexProfile) (k : ℚ) : Option ℚ :=
  (g.strikes.find? (fun s => decide (s.strike = k))).map (fun s => s.netGex)

/-- Modelled from the spec (§4.3 ATM IV, amended to the closed interval the
code enforces): the average of the IV readings drawn from both call and put
sides of the 5 strikes nearest to spot — ties broken by natural strike order
via a stable sort — keeping exactly the readings within [0, 500]; null when no
valid reading exists in the window (or when spot is falsy). -/
def atmIVSpec (spot : ℚ) (sd : List StrikeRecord) : Option ℚ :=
  if spot = 0 ∨ sd = [] then none
  else
    let cands := (sd.insertionSort
      (fun a b => qabs (a.strike - spot) ≤ qabs (b.strike - spot))).take 5
    let ivs := (collectIVs cands).filter (fun v => decide (0 ≤ v) && decide (v ≤ 500))
    if ivs = [] then none else some (ivs.sum / (ivs.length : ℚ))

/-- A chain whose call-gamma maximum and net-exposure maximum sit at
different strikes: heavy put gamma at 100 drags its net below 105's. -/
def skewChain : Chain :=
  { callExpDateMap :=
      [("2026-01-16:2",
        [(100, ⟨some (1/10), some 1, some 0, none⟩),
         (105, ⟨some (1/20), some 1, some 0, none⟩)])]
    putExpDateMap :=
      [("2026-01-16:2",
        [(100, ⟨some (-1), some 1, some 0, none⟩)])] }

/-- A chain whose only contract carries an implied volatility of exactly 0. -/
def zeroIVChain : Chain :=
  { callExpDateMap :=
      [("2026-01-16:2", [(100, ⟨some 0, some 0, some 0, some 0⟩)])]
    putExpDateMap := [] }

/-- A chain with a sub-cent strike 1.004 whose cumulative curve crosses zero
just above that strike, so that two-decimal rounding pushes the flip below
the strike range. -/
def subCentChain : Chain :=
  { callExpDateMap :=
      [("2026-01-16:2", [(2, ⟨some (9999/100), some 1, some 0, none⟩)])]
    putExpDateMap :=
      [("2026-01-16:2", [(251/250, ⟨some (-1/100), some 1, some 0, none⟩)])] }

/-- A chain whose cumulative curve crosses zero between strikes 9 and 11
(cumulative −1 then 1), interpolating to a flip of exactly 10. -/
def crossChain : Chain :=
  { callExpDateMap :=
      [("2026-01-16:2", [(11, ⟨some (1/50), some 1, some 0, none⟩)])]
    putExpDateMap :=
      [("2026-01-16:2", [(9, ⟨some (-1/100), some 1, some 0, none⟩)])] }

/-- A chain whose only strike is 0, carrying a valid put-side IV; with spot 0
the walls land on strike 0, which is falsy. -/
def strikeZeroChain : Chain :=
  { callExpDateMap := []
    putExpDateMap :=
      [("2026-01-16:2", [(0, ⟨some (-1/100), some 1, some 0, some 50⟩)])] }

/-! ### Theorems -/

/-- C1 counterexample: on the spec's worked example the engine does NOT
produce the listed outputs — per-strike exposures are ten times the listed
values (the spec's per-leg multiplier 100 × 102² × 0.01 is 10404, not 1040.4),
the gamma flip is null rather than 105, and the put wall is 100 rather
than 105. -/
theorem C1_counterexample :
    ¬ ((calculateGEX exampleChain 102).map (fun g =>
        (g.strikes.map (fun s => (s.callGex, s.putGex, s.netGex)),
         g.aggregateGex, g.gammaFlip, g.callWall, g.putWall)) =
      some ([((52020 : ℚ), (-166464/5 : ℚ), (93636/5 : ℚ)),
             ((15606 : ℚ), (-93636/5 : ℚ), (-15606/5 : ℚ))],
            [(93636/5 : ℚ), (15606 : ℚ)],
            some (105 : ℚ), some (100 : ℚ), some (105 : ℚ))) := by
  decide

/-- C1 (amended): on the worked example input the engine produces callGex
520200, putGex −332928, net 187272 at strike 100; callGex 156060, putGex
−187272, net −31212 at strike 105; cumulative curve [187272, 156060]; gamma
flip null (no crossing and no fallback); call wall 100; put wall 100. -/
theorem C1_amended : calculateGEX exampleChain 102 = some exampleProfile := by
  decide

/-- C7: after any append the stored log has at most 96 entries (exactly
`min (|prior| + 1) 96`), the retained entries form a suffix of the appended
log — so the oldest entries are discarded first and the survivors keep their
oldest-to-newest order — and nothing is discarded while the log is within
the cap. -/
theorem C7_history_cap (h : List IVHistoryRecord) (r : IVHistoryRecord) :
    (storeIVHistory h r).length ≤ 96 ∧
    (storeIVHistory h r).length = min (h.length + 1) 96 ∧
    (storeIVHistory h r) <:+ (h ++ [r]) ∧
    (h.length + 1 ≤ 96 → storeIVHistory h r = h ++ [r]) := by
  refine ⟨?_, ?_, ?_, ?_⟩
  · simp only [storeIVHistory, sliceLast, List.length_drop, List.length_append,
      List.length_singleton]
    omega
  · simp only [storeIVHistory, sliceLast, List.length_drop, List.length_append,
      List.length_singleton]
    omega
  · exact List.drop_suffix _ _
  · intro hle
    simp only [storeIVHistory, sliceLast, List.length_append, List.length_singleton]
    have : h.length + 1 - 96 = 0 := by omega
    rw [this, List.drop_zero]

/-- C7 witness: instantiated at the empty prior log and a blank record. -/
theorem C7_history_cap_witness :
    (storeIVHistory [] blankRecord).length ≤ 96 ∧
    (storeIVHistory [] blankRecord).length = min (List.length ([] : List IVHistoryRecord) + 1) 96 ∧
    (storeIVHistory [] blankRecord) <:+ ([] ++ [blankRecord]) ∧
    (List.length ([] : List IVHistoryRecord) + 1 ≤ 96 →
      storeIVHistory [] blankRecord = [] ++ [blankRecord]) :=
  C7_history_cap [] blankRecord

/-- C8 counterexample: a negative spot price is truthy, so the handler does
NOT fail fast on it — with last price −5 the full GEX computation runs and
succeeds. -/
theorem C8_counterexample :
    quoteLast negQuote = -5 ∧ (-5 : ℚ) < 0 ∧
    routeOk (gexRoute (some "NVDA") negQuote exampleChain) = true := by
  refine ⟨by decide, by decide, ?_⟩
  decide

/-- C8 (amended): with an absent symbol, or with an absent or zero spot
price, the handler fails with a terminal error before any GEX computation —
its answer is the same error whatever chain data would have been fetched.
Negative spot prices, however, are not rejected. -/
theorem C8_amended (symbol : Option String) (q : Quote) (chain : Chain)
    (h : symbol = none ∨ quoteLast q = 0) :
    routeOk (gexRoute symbol q chain) = false ∧
    gexRoute symbol q chain = gexRoute symbol q emptyChain := by
  rcases h with h | h
  · subst h
    exact ⟨rfl, rfl⟩
  · match symbol with
    | none => exact ⟨rfl, rfl⟩
    | some s =>
      simp only [gexRoute, h]
      by_cases hs : startsWithSlash s
      · simp [hs, routeOk]
      · simp [hs, routeOk]

/-- C8 witness: instantiated at a request with no symbol. -/
theorem C8_amended_witness :
    routeOk (gexRoute none negQuote exampleChain) = false ∧
    gexRoute none negQuote exampleChain = gexRoute none negQuote emptyChain :=
  C8_amended none negQuote exampleChain (Or.inl rfl)

/-- Inverting a successful run of the engine: the chain has at least one
strike and the profile is the one `mkProfile` builds. -/
theorem calculateGEX_inv {c : Chain} {spot : ℚ} {g : GexProfile}
    (hg : calculateGEX c spot = some g) :
    strikesOf c ≠ [] ∧ g = mkProfile c spot := by
  unfold calculateGEX at hg
  split at hg
  · exact absurd hg (by simp)
  · exact ⟨by assumption, (Option.some.inj hg).symm⟩

theorem mkProfile_strikes (c : Chain) (spot : ℚ) :
    (mkProfile c spot).strikes = strikeDataOf c spot := rfl

theorem mkProfile_agg (c : Chain) (spot : ℚ) :
    (mkProfile c spot).aggregateGex =
      cumFrom 0 ((strikeDataOf c spot).map (fun s => s.netGex)) := rfl

theorem mkProfile_flip (c : Chain) (spot : ℚ) :
    (mkProfile c spot).gammaFlip =
      gammaFlipOf spot ((strikesOf c).zip (mkProfile c spot).aggregateGex) := rfl

theorem mkProfile_callWall (c : Chain) (spot : ℚ) :
    (mkProfile c spot).callWall =
      pickWall (fun s => s.callGex) ((strikeDataOf c spot).filter (inBand spot)) := rfl

theorem mkProfile_putWall (c : Chain) (spot : ℚ) :
    (mkProfile c spot).putWall =
      pickWall (fun s => qabs s.putGex) ((strikeDataOf c spot).filter (inBand spot)) := rfl

theorem mkProfile_atmIV (c : Chain) (spot : ℚ) :
    (mkProfile c spot).atmIV = atmIVOf spot (strikeDataOf c spot) := rfl

theorem mkProfile_callWallIV (c : Chain) (spot : ℚ) :
    (mkProfile c spot).callWallIV =
      wallIVOf (fun s => s.callIV) (fun s => s.putIV) ((mkProfile c spot).callWall)
        (strikeDataOf c spot) := rfl

theorem mkProfile_putWallIV (c : Chain) (spot : ℚ) :
    (mkProfile c spot).putWallIV =
      wallIVOf (fun s => s.putIV) (fun s => s.callIV) ((mkProfile c spot).putWall)
        (strikeDataOf c spot) := rfl

/-- The volume/OI facts of a single built record: the ratio is clamped to
[0, 10] and degenerates to 0 on zero open interest. -/
theorem mkRecord_ratio (entries : List Entry) (spot k : ℚ) :
    0 ≤ (mkRecord entries spot k).volOIRatio ∧
    (mkRecord entries spot k).volOIRatio ≤ 10 ∧
    ((mkRecord entries spot k).totalOI = 0 → (mkRecord entries spot k).volOIRatio = 0) := by
  have h1 : (mkRecord entries spot k).volOIRatio =
      (if 0 < (accumAt entries spot k).callOI + (accumAt entries spot k).putOI then
        qmin ((((accumAt entries spot k).callVol + (accumAt entries spot k).putVol : ℕ) : ℚ)
            / (((accumAt entries spot k).callOI + (accumAt entries spot k).putOI : ℕ) : ℚ)) 10
      else 0) := rfl
  have h2 : (mkRecord entries spot k).totalOI =
      (accumAt entries spot k).callOI + (accumAt entries spot k).putOI := rfl
  rw [h1, h2]
  split
  case isTrue h =>
    refine ⟨?_, ?_, ?_⟩
    · unfold qmin
      split
      · positivity
      · norm_num
    · unfold qmin
      split
      · assumption
      · exact le_refl 10
    · intro h0
      omega
  case isFalse h =>
    exact ⟨le_refl 0, by norm_num, fun _ => rfl⟩

/-- C9: every strike record's volume/OI ratio lies in [0, 10] — clamped to at
most 10 — and is 0 whenever total open interest is 0, never a
division-by-zero artifact. -/
theorem C9_volOIRatio (c : Chain) (spot : ℚ) (g : GexProfile)
    (hg : calculateGEX c spot = some g) :
    ∀ s ∈ g.strikes, 0 ≤ s.volOIRatio ∧ s.volOIRatio ≤ 10 ∧
      (s.totalOI = 0 → s.volOIRatio = 0) := by
  obtain ⟨-, hgp⟩ := calculateGEX_inv hg
  subst hgp
  rw [mkProfile_strikes] at *
  intro s hs
  obtain ⟨k, hk, rfl⟩ := List.mem_map.mp (by simpa [strikeDataOf] using hs)
  exact mkRecord_ratio _ _ _

/-- C9 witness: instantiated at the worked example's strike-100 record. -/
theorem C9_volOIRatio_witness :
    0 ≤ (mkRecord (chainEntries exampleChain) 102 100).volOIRatio ∧
    (mkRecord (chainEntries exampleChain) 102 100).volOIRatio ≤ 10 ∧
    ((mkRecord (chainEntries exampleChain) 102 100).totalOI = 0 →
      (mkRecord (chainEntries exampleChain) 102 100).volOIRatio = 0) :=
  C9_volOIRatio exampleChain 102 exampleProfile (by decide)
    (mkRecord (chainEntries exampleChain) 102 100) (by decide)

theorem cumFrom_length (l : List ℚ) : ∀ r : ℚ, (cumFrom r l).length = l.length := by
  induction l with
  | nil => intro r; rfl
  | cons x xs ih => intro r; simpa [cumFrom] using ih (r + x)

/-- Adjacent entries of a running-sum list differ by the corresponding
element of the summed list. -/
theorem cumFrom_adjacent (l : List ℚ) :
    ∀ (r : ℚ) (i : ℕ) (a b : ℚ), (cumFrom r l)[i]? = some a →
      (cumFrom r l)[i+1]? = some b → ∃ x, l[i+1]? = some x ∧ b = a + x := by
  induction l with
  | nil => intro r i a b h1 _; simp [cumFrom] at h1
  | cons x xs ih =>
    intro r i a b h1 h2
    match i with
    | 0 =>
      simp only [cumFrom, List.getElem?_cons_zero, List.getElem?_cons_succ,
        Option.some.injEq] at h1 h2
      match xs, h2 with
      | y :: ys, h2 =>
        simp only [cumFrom, List.getElem?_cons_zero, Option.some.injEq] at h2
        exact ⟨y, by simp, by rw [← h1, ← h2]⟩
    | j + 1 =>
      simp only [cumFrom, List.getElem?_cons_succ] at h1 h2
      obtain ⟨y, hy, hb⟩ := ih (r + x) j a b h1 h2
      exact ⟨y, by simpa using hy, hb⟩

/-- The last running sum is the initial value plus the total sum. -/
theorem cumFrom_getLast (l : List ℚ) :
    ∀ r : ℚ, l ≠ [] → (cumFrom r l).getLast? = some (r + l.sum) := by
  induction l with
  | nil => intro r h; exact absurd rfl h
  | cons x xs ih =>
    intro r _
    match xs with
    | [] => simp [cumFrom]
    | y :: ys =>
      have hx : cumFrom r (x :: y :: ys) = (r + x) :: cumFrom (r + x) (y :: ys) := rfl
      have hy : cumFrom (r + x) (y :: ys) = ((r + x) + y) :: cumFrom ((r + x) + y) ys := rfl
      rw [hx, hy, List.getLast?_cons_cons, ← hy, ih (r + x) (by simp)]
      simp [add_assoc]

/-- C6: the cumulative exposure sequence has the same length as the strike
list, starts at the first net exposure, steps by `cumulative[i+1] =
cumulative[i] + netGex[i+1]`, and ends at the total net exposure. -/
theorem C6_cumulative (c : Chain) (spot : ℚ) (g : GexProfile)
    (hg : calculateGEX c spot = some g) (hspot : 0 < spot) :
    g.aggregateGex.length = g.strikes.length ∧
    g.aggregateGex.head? = g.strikes.head?.map (fun s => s.netGex) ∧
    (∀ (i : ℕ) (a b : ℚ) (r : StrikeRecord), g.aggregateGex[i]? = some a →
      g.aggregateGex[i+1]? = some b → g.strikes[i+1]? = some r →
        b = a + r.netGex) ∧
    g.aggregateGex.getLast? = some ((g.strikes.map (fun s => s.netGex)).sum) := by
  obtain ⟨hne, hgp⟩ := calculateGEX_inv hg
  subst hgp
  rw [mkProfile_agg, mkProfile_strikes]
  have hsd : strikeDataOf c spot ≠ [] := by
    intro h
    exact hne (by simpa [strikeDataOf] using congrArg (List.map (fun s => s.strike)) h)
  refine ⟨?_, ?_, ?_, ?_⟩
  · rw [cumFrom_length, List.length_map]
  · match hsd2 : strikeDataOf c spot with
    | [] => exact absurd hsd2 hsd
    | s :: ss =>
      show (cumFrom 0 (s.netGex :: ss.map (fun t => t.netGex))).head? = _
      rw [cumFrom]
      simp
  · intro i a b r h1 h2 h3
    obtain ⟨x, hx, hb⟩ := cumFrom_adjacent _ _ _ _ _ h1 h2
    rw [List.getElem?_map, h3] at hx
    simp at hx
    rw [hb, hx]
  · rw [cumFrom_getLast _ _ (by simpa using hsd), zero_add]

/-- C6 witness: instantiated at the worked example. -/
theorem C6_cumulative_witness :
    exampleProfile.aggregateGex.length = exampleProfile.strikes.length ∧
    exampleProfile.aggregateGex.head? =
      exampleProfile.strikes.head?.map (fun s => s.netGex) ∧
    (∀ (i : ℕ) (a b : ℚ) (r : StrikeRecord), exampleProfile.aggregateGex[i]? = some a →
      exampleProfile.aggregateGex[i+1]? = some b → exampleProfile.strikes[i+1]? = some r →
        b = a + r.netGex) ∧
    exampleProfile.aggregateGex.getLast? =
      some ((exampleProfile.strikes.map (fun s => s.netGex)).sum) :=
  C6_cumulative exampleChain 102 exampleProfile (by decide) (by norm_num)

/-- The crossing scan returns no crossing exactly when no adjacent pair of
the cumulative curve straddles zero. -/
theorem findCrossings_zip_nil : ∀ (ss cs : List ℚ), ss.length = cs.length →
    (findCrossings (ss.zip cs) = [] ↔ hasStraddle cs = false) := by
  intro ss
  induction ss with
  | nil =>
    intro cs hlen
    have hcs : cs = [] := by
      match cs with
      | [] => rfl
      | _ :: _ => simp at hlen
    subst hcs
    simp [findCrossings, hasStraddle]
  | cons s1 ss ih =>
    intro cs hlen
    match cs with
    | [] => simp at hlen
    | c1 :: cs' =>
      match ss, cs' with
      | [], [] => simp [findCrossings, hasStraddle]
      | [], c2 :: cs'' => simp at hlen
      | s2 :: ss'', [] => simp at hlen
      | s2 :: ss'', c2 :: cs'' =>
        have hlen' : (s2 :: ss'').length = (c2 :: cs'').length := by simpa using hlen
        by_cases hstr : (c1 < 0 ∧ 0 ≤ c2) ∨ (0 ≤ c1 ∧ c2 < 0)
        · simp [findCrossings, hasStraddle, hstr]
        · simpa [findCrossings, hasStraddle, hstr] using ih (c2 :: cs'') hlen'

/-- C3 (amended): when no adjacent pair of the cumulative curve straddles
zero, the gamma flip is null — the fixed worker has no
smallest-|cumulative| fallback. -/
theorem C3_noCrossing (c : Chain) (spot : ℚ) (g : GexProfile)
    (hg : calculateGEX c spot = some g)
    (hns : hasStraddle g.aggregateGex = false) : g.gammaFlip = none := by
  obtain ⟨hne, hgp⟩ := calculateGEX_inv hg
  subst hgp
  rw [mkProfile_flip]
  rw [mkProfile_agg] at hns
  have hlen : (strikesOf c).length =
      (cumFrom 0 ((strikeDataOf c spot).map (fun s => s.netGex))).length := by
    rw [cumFrom_length, List.length_map, strikeDataOf, List.length_map]
  have hnil := (findCrossings_zip_nil _ _ hlen).mpr hns
  rw [mkProfile_agg, gammaFlipOf, hnil]

/-- C3 counterexample: the worked example's cumulative curve has no
straddling pair, yet the gamma flip is null rather than the
smallest-|cumulative| strike 105 the claim requires. -/
theorem C3_counterexample :
    (calculateGEX exampleChain 102).map
      (fun g => (hasStraddle g.aggregateGex, g.gammaFlip)) = some (false, none) := by
  decide

/-- C3 witness: instantiated at the worked example. -/
theorem C3_noCrossing_witness : exampleProfile.gammaFlip = none :=
  C3_noCrossing exampleChain 102 exampleProfile (by decide) (by decide)

/-- The wall fold, started from an already-seen candidate, returns a maximum
that dominates the initial candidate and every later record, and that is
witnessed by the initial candidate or some record of the list. -/
theorem wallFold_go (key : StrikeRecord → ℚ) :
    ∀ (l : List StrikeRecord) (w0 m0 : ℚ),
    ∃ w m, l.foldl (wallStep key) (some w0, some m0) = (some w, some m) ∧
      m0 ≤ m ∧ (∀ s ∈ l, key s ≤ m) ∧
      ((w = w0 ∧ m = m0) ∨ ∃ r ∈ l, r.strike = w ∧ key r = m) := by
  intro l
  induction l with
  | nil =>
    intro w0 m0
    exact ⟨w0, m0, rfl, le_refl _, by simp, Or.inl ⟨rfl, rfl⟩⟩
  | cons s l ih =>
    intro w0 m0
    rw [List.foldl_cons]
    by_cases hlt : m0 < key s
    · have hstep : wallStep key (some w0, some m0) s = (some s.strike, some (key s)) := by
        simp [wallStep, hlt]
      rw [hstep]
      obtain ⟨w, m, heq, hle, hall, hw⟩ := ih s.strike (key s)
      refine ⟨w, m, heq, le_of_lt (lt_of_lt_of_le hlt hle), ?_, ?_⟩
      · intro t ht
        rcases List.mem_cons.mp ht with h | h
        · subst h; exact hle
        · exact hall t h
      · rcases hw with ⟨hw1, hm⟩ | ⟨r, hr, hrs, hrm⟩
        · exact Or.inr ⟨s, List.mem_cons_self _ _, hw1.symm ▸ rfl, hm.symm ▸ rfl⟩
        · exact Or.inr ⟨r, List.mem_cons_of_mem _ hr, hrs, hrm⟩
    · have hstep : wallStep key (some w0, some m0) s = (some w0, some m0) := by
        simp [wallStep, hlt]
      rw [hstep]
      obtain ⟨w, m, heq, hle, hall, hw⟩ := ih w0 m0
      refine ⟨w, m, heq, hle, ?_, ?_⟩
      · intro t ht
        rcases List.mem_cons.mp ht with h | h
        · subst h; exact le_trans (le_of_not_lt hlt) hle
        · exact hall t h
      · rcases hw with ⟨hw1, hm⟩ | ⟨r, hr, hrs, hrm⟩
        · exact Or.inl ⟨hw1, hm⟩
        · exact Or.inr ⟨r, List.mem_cons_of_mem _ hr, hrs, hrm⟩

/-- A returned wall strike belongs to a record of the scanned list whose key
dominates every record of the list. -/
theorem pickWall_spec (key : StrikeRecord → ℚ) (l : List StrikeRecord) (w : ℚ)
    (hw : pickWall key l = some w) :
    ∃ r ∈ l, r.strike = w ∧ ∀ s ∈ l, key s ≤ key r := by
  match l with
  | [] => exact absurd hw (by simp [pickWall])
  | s :: l =>
    have h0 : pickWall key (s :: l) =
        (l.foldl (wallStep key) (some s.strike, some (key s))).1 := rfl
    obtain ⟨w', m, heq, hle, hall, hcase⟩ := wallFold_go key l s.strike (key s)
    rw [h0, heq] at hw
    have hww : w' = w := Option.some.inj hw
    subst hww
    rcases hcase with ⟨hw1, hm⟩ | ⟨r, hr, hrs, hrm⟩
    · subst hw1
      refine ⟨s, List.mem_cons_self _ _, rfl, ?_⟩
      intro t ht
      rcases List.mem_cons.mp ht with h | h
      · subst h; exact le_refl _
      · subst hm; exact hall t h
    · refine ⟨r, List.mem_cons_of_mem _ hr, hrs, ?_⟩
      intro t ht
      rcases List.mem_cons.mp ht with h | h
      · subst h; exact hrm.symm ▸ hle
      · exact hrm.symm ▸ hall t h

/-- C2 (amended): the call wall, when present, is an in-band strike whose
call-side exposure `callGex` dominates every in-band strike's `callGex`, and
the put wall an in-band strike whose `|putGex|` dominates every in-band
strike's `|putGex|` — the scans maximise the side exposures, not `netGex`. -/
theorem C2_walls (c : Chain) (spot : ℚ) (g : GexProfile)
    (hg : calculateGEX c spot = some g) :
    (∀ w, g.callWall = some w →
      ∃ r ∈ g.strikes.filter (inBand spot), r.strike = w ∧
        ∀ s ∈ g.strikes.filter (inBand spot), s.callGex ≤ r.callGex) ∧
    (∀ w, g.putWall = some w →
      ∃ r ∈ g.strikes.filter (inBand spot), r.strike = w ∧
        ∀ s ∈ g.strikes.filter (inBand spot), qabs s.putGex ≤ qabs r.putGex) := by
  obtain ⟨-, hgp⟩ := calculateGEX_inv hg
  subst hgp
  rw [mkProfile_strikes]
  constructor
  · intro w hw
    rw [mkProfile_callWall] at hw
    exact pickWall_spec _ _ _ hw
  · intro w hw
    rw [mkProfile_putWall] at hw
    exact pickWall_spec (fun s => qabs s.putGex) _ _ hw

/-- C2 witness: instantiated at the worked example. -/
theorem C2_walls_witness :
    (∀ w, exampleProfile.callWall = some w →
      ∃ r ∈ exampleProfile.strikes.filter (inBand 102), r.strike = w ∧
        ∀ s ∈ exampleProfile.strikes.filter (inBand 102), s.callGex ≤ r.callGex) ∧
    (∀ w, exampleProfile.putWall = some w →
      ∃ r ∈ exampleProfile.strikes.filter (inBand 102), r.strike = w ∧
        ∀ s ∈ exampleProfile.strikes.filter (inBand 102),
          qabs s.putGex ≤ qabs r.putGex) :=
  C2_walls exampleChain 102 exampleProfile (by decide)

/-- C2 counterexample: in `skewChain` both strikes are in the ±40% band, the
call wall lands on strike 100 (the `callGex` maximum), yet strike 100's net
exposure −9363.6 is smaller than in-band strike 105's 520.2 — the wall does
not maximise `netGex` as claimed. -/
theorem C2_counterexample :
    (calculateGEX skewChain 102).map (fun g => g.callWall) = some (some 100) ∧
    ((calculateGEX skewChain 102).bind (fun g => netAt g 100)) = some (-46818/5) ∧
    ((calculateGEX skewChain 102).bind (fun g => netAt g 105)) = some (2601/5) ∧
    ((-46818 : ℚ)/5) < (2601 : ℚ)/5 ∧
    (calculateGEX skewChain 102).map
      (fun g => (g.strikes.filter (inBand 102)).map (fun s => s.strike)) =
        some [100, 105] := by
  refine ⟨by decide, by decide, by decide, by decide, by decide⟩

/-- C10 (amended): for a non-null, non-zero call wall the reported
`callWallIV` is the call-side IV of the wall's record with the put-side IV as
fallback, and symmetrically for the put wall; the value is null when the wall
is null, when the wall strike is 0 (falsy in the source), or when both side
IVs are absent. -/
theorem C10_wallIV (c : Chain) (spot : ℚ) (g : GexProfile)
    (hg : calculateGEX c spot = some g) :
    (g.callWall = none → g.callWallIV = none) ∧
    (g.callWall = some 0 → g.callWallIV = none) ∧
    (∀ w r, g.callWall = some w → w ≠ 0 →
      g.strikes.find? (fun s => decide (s.strike = w)) = some r →
        g.callWallIV = match r.callIV with | some v => some v | none => r.putIV) ∧
    (g.putWall = none → g.putWallIV = none) ∧
    (g.putWall = some 0 → g.putWallIV = none) ∧
    (∀ w r, g.putWall = some w → w ≠ 0 →
      g.strikes.find? (fun s => decide (s.strike = w)) = some r →
        g.putWallIV = match r.putIV with | some v => some v | none => r.callIV) := by
  obtain ⟨-, hgp⟩ := calculateGEX_inv hg
  subst hgp
  rw [mkProfile_strikes]
  refine ⟨?_, ?_, ?_, ?_, ?_, ?_⟩
  · intro hw; rw [mkProfile_callWallIV, hw, wallIVOf]
  · intro hw; rw [mkProfile_callWallIV, hw, wallIVOf]; simp
  · intro w r hw hw0 hfind
    rw [mkProfile_callWallIV, hw, wallIVOf]
    simp only [if_neg hw0, hfind]
  · intro hw; rw [mkProfile_putWallIV, hw, wallIVOf]
  · intro hw; rw [mkProfile_putWallIV, hw, wallIVOf]; simp
  · intro w r hw hw0 hfind
    rw [mkProfile_putWallIV, hw, wallIVOf]
    simp only [if_neg hw0, hfind]

/-- C10 witness: instantiated at the worked example, whose call wall 100 has
no IV on either side, so the reported wall IV is null. -/
theorem C10_wallIV_witness :
    (exampleProfile.callWall = none → exampleProfile.callWallIV = none) ∧
    (exampleProfile.callWall = some 0 → exampleProfile.callWallIV = none) ∧
    (∀ w r, exampleProfile.callWall = some w → w ≠ 0 →
      exampleProfile.strikes.find? (fun s => decide (s.strike = w)) = some r →
        exampleProfile.callWallIV =
          match r.callIV with | some v => some v | none => r.putIV) ∧
    (exampleProfile.putWall = none → exampleProfile.putWallIV = none) ∧
    (exampleProfile.putWall = some 0 → exampleProfile.putWallIV = none) ∧
    (∀ w r, exampleProfile.putWall = some w → w ≠ 0 →
      exampleProfile.strikes.find? (fun s => decide (s.strike = w)) = some r →
        exampleProfile.putWallIV =
          match r.putIV with | some v => some v | none => r.callIV) :=
  C10_wallIV exampleChain 102 exampleProfile (by decide)

/-- C10 counterexample: with the only strike at 0 and spot 0, the put wall is
the non-null strike 0 whose record carries put IV 50, yet the reported
`putWallIV` is null — the source's truthiness guard `if (putWall)` drops the
zero strike. -/
theorem C10_counterexample :
    (calculateGEX strikeZeroChain 0).map
      (fun g => (g.callWall, g.putWall, g.callWallIV, g.putWallIV)) =
      some (some 0, some 0, none, none) ∧
    (calculateGEX strikeZeroChain 0).map
      (fun g => g.strikes.map (fun s => (s.callIV, s.putIV))) =
      some [(none, some 50)] := by
  exact ⟨by decide, by decide⟩

/-- A volatility reading surviving `cleanIV` lies in the closed band
[0, 500]. -/
theorem cleanIV_range {o : Option ℚ} {v : ℚ} (h : cleanIV o = some v) :
    0 ≤ v ∧ v ≤ 500 := by
  match o with
  | none => simp [cleanIV] at h
  | some x =>
    simp only [cleanIV] at h
    split at h
    · exact absurd h (by simp)
    · obtain rfl : x = v := Option.some.inj h
      rename_i hx
      push_neg at hx
      exact ⟨not_lt.mp (fun hlt => absurd hlt (by simpa using hx.1)), hx.2⟩

/-- One accumulation step preserves the [0, 500] band of the representative
IVs. -/
theorem accumStep_IV_range (spot strike : ℚ) (a : Accum) (e : Entry)
    (ha : (∀ v, a.callIV = some v → 0 ≤ v ∧ v ≤ 500) ∧
      (∀ v, a.putIV = some v → 0 ≤ v ∧ v ≤ 500)) :
    (∀ v, (accumStep spot strike a e).callIV = some v → 0 ≤ v ∧ v ≤ 500) ∧
    (∀ v, (accumStep spot strike a e).putIV = some v → 0 ≤ v ∧ v ≤ 500) := by
  obtain ⟨k, b, ct⟩ := e
  unfold accumStep
  dsimp only
  split
  · cases b
    · refine ⟨ha.1, ?_⟩
      intro v hv
      revert hv
      cases hcl : cleanIV ct.volatility with
      | some u =>
        intro hv
        obtain rfl : u = v := Option.some.inj hv
        exact cleanIV_range hcl
      | none => exact ha.2 v
    · refine ⟨?_, ha.2⟩
      intro v hv
      revert hv
      cases hcl : cleanIV ct.volatility with
      | some u =>
        intro hv
        obtain rfl : u = v := Option.some.inj hv
        exact cleanIV_range hcl
      | none => exact ha.1 v
  · exact ha

/-- The accumulation preserves the [0, 500] band of the representative IVs. -/
theorem accumFold_IV_range (spot strike : ℚ) :
    ∀ (l : List Entry) (a : Accum),
      ((∀ v, a.callIV = some v → 0 ≤ v ∧ v ≤ 500) ∧
       (∀ v, a.putIV = some v → 0 ≤ v ∧ v ≤ 500)) →
      ((∀ v, (l.foldl (accumStep spot strike) a).callIV = some v → 0 ≤ v ∧ v ≤ 500) ∧
       (∀ v, (l.foldl (accumStep spot strike) a).putIV = some v → 0 ≤ v ∧ v ≤ 500)) := by
  intro l
  induction l with
  | nil => intro a ha; exact ha
  | cons e l ih =>
    intro a ha
    rw [List.foldl_cons]
    exact ih _ (accumStep_IV_range spot strike a e ha)

/-- Every built strike record's representative IVs lie in [0, 500]. -/
theorem strikeData_IV_range (c : Chain) (spot : ℚ) :
    ∀ s ∈ strikeDataOf c spot,
      (∀ v, s.callIV = some v → 0 ≤ v ∧ v ≤ 500) ∧
      (∀ v, s.putIV = some v → 0 ≤ v ∧ v ≤ 500) := by
  intro s hs
  obtain ⟨k, hk, rfl⟩ := List.mem_map.mp (by simpa [strikeDataOf] using hs)
  exact accumFold_IV_range spot k (chainEntries c) Accum.init (by simp [Accum.init])

theorem catOpt_mem (o : Option ℚ) (v : ℚ) : v ∈ catOpt o ↔ o = some v := by
  cases o <;> simp [catOpt]
  exact eq_comm

/-- Every collected IV reading comes from one side of a listed record. -/
theorem collectIVs_mem : ∀ (l : List StrikeRecord) (v : ℚ), v ∈ collectIVs l →
    ∃ s ∈ l, s.callIV = some v ∨ s.putIV = some v := by
  intro l
  induction l with
  | nil => intro v hv; simp [collectIVs] at hv
  | cons s l ih =>
    intro v hv
    simp only [collectIVs, List.mem_append] at hv
    rcases hv with (h | h) | h
    · exact ⟨s, List.mem_cons_self _ _, Or.inl ((catOpt_mem _ _).mp h)⟩
    · exact ⟨s, List.mem_cons_self _ _, Or.inr ((catOpt_mem _ _).mp h)⟩
    · obtain ⟨t, ht, hor⟩ := ih v h
      exact ⟨t, List.mem_cons_of_mem _ ht, hor⟩

/-- C4 (amended): the reported ATM IV equals the spec-side definition once
the validity band is widened to the closed interval [0, 500]: the average of
the call- and put-side readings within [0, 500] across the 5 strikes nearest
to spot (stable distance sort, ties by ascending strike), null when no such
reading exists; readings of exactly 0 or 500 do contribute. -/
theorem C4_atmIV (c : Chain) (spot : ℚ) (g : GexProfile)
    (hg : calculateGEX c spot = some g) :
    g.atmIV = atmIVSpec spot g.strikes := by
  obtain ⟨-, hgp⟩ := calculateGEX_inv hg
  subst hgp
  rw [mkProfile_atmIV, mkProfile_strikes]
  by_cases hc : spot = 0 ∨ strikeDataOf c spot = []
  · simp only [atmIVOf, atmIVSpec, if_pos hc]
  · simp only [atmIVOf, atmIVSpec, if_neg hc]
    have hfilt :
        (collectIVs ((List.insertionSort
            (fun a b => qabs (a.strike - spot) ≤ qabs (b.strike - spot))
            (strikeDataOf c spot)).take 5)).filter
          (fun v => decide (0 ≤ v) && decide (v ≤ 500)) =
        collectIVs ((List.insertionSort
            (fun a b => qabs (a.strike - spot) ≤ qabs (b.strike - spot))
            (strikeDataOf c spot)).take 5) := by
      rw [List.filter_eq_self]
      intro v hv
      obtain ⟨s, hs, hor⟩ := collectIVs_mem _ v hv
      have hsd : s ∈ strikeDataOf c spot :=
        (List.perm_insertionSort _ _).subset (List.take_subset _ _ hs)
      have hrange := strikeData_IV_range c spot s hsd
      rcases hor with h | h
      · obtain ⟨h1, h2⟩ := hrange.1 v h
        simp [h1, h2]
      · obtain ⟨h1, h2⟩ := hrange.2 v h
        simp [h1, h2]
    rw [hfilt]

/-- C4 witness: instantiated at the worked example (no IVs, both sides
null). -/
theorem C4_atmIV_witness :
    exampleProfile.atmIV = atmIVSpec 102 exampleProfile.strikes :=
  C4_atmIV exampleChain 102 exampleProfile (by decide)

/-- C4 counterexample: a single contract with IV exactly 0 is kept as valid
by `cleanIV`, so the ATM IV is 0 — the reading is not treated as absent and
the result is not null, contradicting the open-interval claim. -/
theorem C4_counterexample :
    (calculateGEX zeroIVChain 100).map
      (fun g => (g.atmIV, g.strikes.map (fun s => (s.callIV, s.putIV)))) =
      some (some 0, [(some 0, none)]) := by
  decide

theorem qabs_nonneg (x : ℚ) : 0 ≤ qabs x := by
  unfold qabs
  split
  · rename_i h; linarith
  · rename_i h; exact not_lt.mp h

theorem qabs_pos_of_neg {x : ℚ} (h : x < 0) : 0 < qabs x := by
  unfold qabs
  rw [if_pos h]
  linarith

theorem roundTo2_zero : roundTo2 0 = 0 := by decide

/-- The `reduce` scan returns one of the candidates. -/
theorem nearestTo_mem (spot : ℚ) : ∀ (cs : List ℚ) (c : ℚ), nearestTo spot c cs ∈ c :: cs := by
  intro cs
  induction cs with
  | nil => intro c; simp [nearestTo]
  | cons k ks ih =>
    intro c
    have hstep : nearestTo spot c (k :: ks) =
        nearestTo spot (if qabs (k - spot) < qabs (c - spot) then k else c) ks := rfl
    rw [hstep]
    rcases List.mem_cons.mp (ih (if qabs (k - spot) < qabs (c - spot) then k else c)) with h1 | h1
    · rw [h1]
      split
      · exact List.mem_cons_of_mem _ (List.mem_cons_self _ _)
      · exact List.mem_cons_self _ _
    · exact List.mem_cons_of_mem _ (List.mem_cons_of_mem _ h1)

/-- The chosen crossing is one of the scanned crossings. -/
theorem chooseCrossing_mem (spot c : ℚ) (cs : List ℚ) :
    chooseCrossing spot (c :: cs) ∈ c :: cs := by
  show (if spot = 0 then c else nearestTo spot c cs) ∈ c :: cs
  split
  · exact List.mem_cons_self _ _
  · exact nearestTo_mem spot cs c

/-- Every interpolated crossing is bracketed by the strikes of some two
scanned pairs. -/
theorem findCrossings_between : ∀ (l : List (ℚ × ℚ)) (cr : ℚ), cr ∈ findCrossings l →
    ∃ p ∈ l, ∃ q ∈ l, p.1 ≤ cr ∧ cr ≤ q.1 := by
  intro l
  induction l with
  | nil => intro cr h; simp [findCrossings] at h
  | cons p l ih =>
    intro cr h
    match l with
    | [] => simp [findCrossings] at h
    | q :: rest =>
      by_cases hstr : (p.2 < 0 ∧ 0 ≤ q.2) ∨ (0 ≤ p.2 ∧ q.2 < 0)
      · simp only [findCrossings, if_pos hstr, List.mem_cons] at h
        rcases h with h | h
        · subst h
          have hden : 0 < qabs p.2 + qabs q.2 := by
            rcases hstr with ⟨ha, _⟩ | ⟨_, hb⟩
            · exact add_pos_of_pos_of_nonneg (qabs_pos_of_neg ha) (qabs_nonneg _)
            · exact add_pos_of_nonneg_of_pos (qabs_nonneg _) (qabs_pos_of_neg hb)
          have hr0 : 0 ≤ qabs p.2 / (qabs p.2 + qabs q.2) :=
            div_nonneg (qabs_nonneg _) hden.le
          have hr1 : qabs p.2 / (qabs p.2 + qabs q.2) ≤ 1 :=
            (div_le_one hden).mpr (le_add_of_nonneg_right (qabs_nonneg _))
          rcases le_total p.1 q.1 with h12 | h21
          · refine ⟨p, List.mem_cons_self _ _,
              q, List.mem_cons_of_mem _ (List.mem_cons_self _ _), ?_, ?_⟩
            · nlinarith [mul_nonneg hr0 (sub_nonneg.mpr h12)]
            · nlinarith [mul_le_of_le_one_left (sub_nonneg.mpr h12) hr1]
          · refine ⟨q, List.mem_cons_of_mem _ (List.mem_cons_self _ _),
              p, List.mem_cons_self _ _, ?_, ?_⟩
            · nlinarith [mul_nonneg (sub_nonneg.mpr hr1) (sub_nonneg.mpr h21)]
            · nlinarith [mul_nonneg hr0 (sub_nonneg.mpr h21)]
        · obtain ⟨p', hp', q', hq', h1, h2⟩ := ih cr h
          exact ⟨p', List.mem_cons_of_mem _ hp', q', List.mem_cons_of_mem _ hq', h1, h2⟩
      · simp only [findCrossings, if_neg hstr] at h
        obtain ⟨p', hp', q', hq', h1, h2⟩ := ih cr h
        exact ⟨p', List.mem_cons_of_mem _ hp', q', List.mem_cons_of_mem _ hq', h1, h2⟩

/-- C5 (amended): when the cumulative curve has a straddling adjacent pair,
the gamma flip is non-null and equals — after rounding to two decimals — the
linearly interpolated crossing
`strike[i-1] + (|cum[i-1]| / (|cum[i-1]| + |cum[i]|)) × (strike[i] - strike[i-1])`
chosen nearest to a truthy spot (first crossing otherwise); the unrounded
chosen crossing lies within the strike range (the final rounding can move
the reported value outside it by strictly less than half a cent). -/
theorem C5_flip (c : Chain) (spot : ℚ) (g : GexProfile)
    (hg : calculateGEX c spot = some g)
    (hx : hasStraddle g.aggregateGex = true) :
    ∃ cr, cr ∈ findCrossings ((g.strikes.map (fun s => s.strike)).zip g.aggregateGex) ∧
      cr = chooseCrossing spot
        (findCrossings ((g.strikes.map (fun s => s.strike)).zip g.aggregateGex)) ∧
      g.gammaFlip = some (roundTo2 cr) ∧
      (∃ p ∈ g.strikes, p.strike ≤ cr) ∧ (∃ q ∈ g.strikes, cr ≤ q.strike) := by
  obtain ⟨hne, hgp⟩ := calculateGEX_inv hg
  subst hgp
  have hmap : (strikeDataOf c spot).map (fun s => s.strike) = strikesOf c := by
    rw [strikeDataOf, List.map_map]
    exact List.map_id _
  rw [mkProfile_strikes, mkProfile_agg, hmap]
  rw [mkProfile_agg] at hx
  have hlen : (strikesOf c).length =
      (cumFrom 0 ((strikeDataOf c spot).map (fun s => s.netGex))).length := by
    rw [cumFrom_length, List.length_map, strikeDataOf, List.length_map]
  have hnonempty :
      findCrossings ((strikesOf c).zip
        (cumFrom 0 ((strikeDataOf c spot).map (fun s => s.netGex)))) ≠ [] := by
    intro h0
    rw [(findCrossings_zip_nil _ _ hlen).mp h0] at hx
    exact Bool.false_ne_true hx
  obtain ⟨c0, cs0, hcrs⟩ := List.exists_cons_of_ne_nil hnonempty
  refine ⟨chooseCrossing spot
    (findCrossings ((strikesOf c).zip
      (cumFrom 0 ((strikeDataOf c spot).map (fun s => s.netGex))))), ?_, rfl, ?_, ?_, ?_⟩
  · rw [hcrs]
    exact chooseCrossing_mem spot c0 cs0
  · rw [mkProfile_flip, mkProfile_agg, gammaFlipOf, hcrs]
    by_cases hch : chooseCrossing spot (c0 :: cs0) = 0
    · simp only [hch, if_pos]
      rw [roundTo2_zero]
    · simp only [if_neg hch]
  · rw [hcrs]
    obtain ⟨p, hp, q, hq, h1, h2⟩ := findCrossings_between _ _
      (by rw [hcrs]; exact chooseCrossing_mem spot c0 cs0)
    have hp1 : p.1 ∈ strikesOf c := (List.of_mem_zip hp).1
    rw [← hmap] at hp1
    obtain ⟨s, hs, hss⟩ := List.mem_map.mp hp1
    exact ⟨s, hs, hss ▸ h1⟩
  · rw [hcrs]
    obtain ⟨p, hp, q, hq, h1, h2⟩ := findCrossings_between _ _
      (by rw [hcrs]; exact chooseCrossing_mem spot c0 cs0)
    have hq1 : q.1 ∈ strikesOf c := (List.of_mem_zip hq).1
    rw [← hmap] at hq1
    obtain ⟨s, hs, hss⟩ := List.mem_map.mp hq1
    exact ⟨s, hs, hss ▸ h2⟩

/-- C5 witness: instantiated at `crossChain` (cumulative −1 then 1, flip
interpolated to exactly 10). -/
theorem C5_flip_witness :
    calculateGEX crossChain 10 = some (mkProfile crossChain 10) ∧
    hasStraddle (mkProfile crossChain 10).aggregateGex = true ∧
    (∃ cr, cr ∈ findCrossings
        (((mkProfile crossChain 10).strikes.map (fun s => s.strike)).zip
          (mkProfile crossChain 10).aggregateGex) ∧
      cr = chooseCrossing 10
        (findCrossings (((mkProfile crossChain 10).strikes.map (fun s => s.strike)).zip
          (mkProfile crossChain 10).aggregateGex)) ∧
      (mkProfile crossChain 10).gammaFlip = some (roundTo2 cr) ∧
      (∃ p ∈ (mkProfile crossChain 10).strikes, p.strike ≤ cr) ∧
      (∃ q ∈ (mkProfile crossChain 10).strikes, cr ≤ q.strike)) :=
  ⟨by decide, by decide,
    C5_flip crossChain 10 (mkProfile crossChain 10) (by decide) (by decide)⟩

/-- C5 counterexample: in `subCentChain` the curve crosses between strikes
1.004 and 2 at 1.004 + 0.996/9999, but rounding to two decimals reports a
flip of 1, strictly below the minimum strike 1.004 — the returned flip does
not lie within [min(strike), max(strike)]. -/
theorem C5_counterexample :
    (calculateGEX subCentChain 10).map
      (fun g => (hasStraddle g.aggregateGex, g.gammaFlip,
        g.strikes.map (fun s => s.strike))) =
      some (true, some 1, [(251 : ℚ)/250, 2]) ∧
    (1 : ℚ) < (251 : ℚ)/250 :=
  ⟨by decide, by decide⟩
